import Mathlib

/-!
# CrunchNAT: a verified shallow embedding

This file embeds the CrunchNAT core (`crunchnat.py`) in Lean 4:
bijective mapping of internal IPv4 addresses to external
(address, port list) pairs, with three algorithms (simple, stripe,
secure), RSA-based port obfuscation for the secure algorithm, and the
collision / bijection self-checks.  Machine integers are modelled as
`Nat`/`Int`; operations that can raise a Python exception return
`Option`/`Except`.
-/

/-! ## Constants (module-level constants of `crunchnat.py`) -/

def PORTS_PER_IP : Nat := 65536
def RESERVED_PORTS : Nat := 1024
def USABLE_PORTS : Nat := PORTS_PER_IP - RESERVED_PORTS
def MAX_CRUNCH_FACTOR : Int := 8
def DEFAULT_P : Nat := 251
def DEFAULT_Q : Nat := 257
def DEFAULT_E : Nat := 19

/-! ## IPv4 networks (the slice of Python `ipaddress` that the core uses) -/

/-- An IPv4 network: the integer value of its zero-host address together
with its prefix length.  Addresses are plain `Nat` values. -/
structure IPNetwork where
  network_address : Nat
  prefixlen : Nat
deriving DecidableEq, Repr

def IPNetwork.num_addresses (net : IPNetwork) : Nat :=
  2 ^ (32 - net.prefixlen)

def IPNetwork.broadcast_address (net : IPNetwork) : Nat :=
  net.network_address + net.num_addresses - 1

/-- Python `ipaddress` network indexing `network[k]`: non-negative indices
count from the network address and raise `IndexError` past the broadcast
address; negative indices count down from the broadcast address and raise
once they pass the network address.  `none` models the raised error. -/
def IPNetwork.getItem (net : IPNetwork) (k : Int) : Option Nat :=
  if 0 ≤ k then
    if (net.network_address : Int) + k > (net.broadcast_address : Int) then
      none
    else
      some (net.network_address + k.toNat)
  else
    if (net.broadcast_address : Int) + (k + 1) < (net.network_address : Int) then
      none
    else
      some ((net.broadcast_address : Int) + (k + 1)).toNat

/-! ## Modular arithmetic helpers (`egcd`, `modinv`, `gen_rsa_methods`) -/

/-- Extended greatest common divisor, as in the source:
`egcd a b = (g, x, y)` with recursion `egcd a b = step (egcd (b % a) a)`. -/
def egcd (a b : Nat) : Int × Int × Int :=
  if h : a = 0 then ((b : Int), 0, 1)
  else
    have : b % a < a := Nat.mod_lt _ (Nat.pos_of_ne_zero h)
    let r := egcd (b % a) a
    (r.1, r.2.2 - ((b / a : Nat) : Int) * r.2.1, r.2.1)
termination_by a

/-- Modular inverse; `none` models the raised exception when
`gcd a m ≠ 1`.  On success the result is `x % m` for the Bezout
coefficient `x`, a value in `[0, m)`. -/
def modinv (a m : Nat) : Option Nat :=
  let t := egcd a m
  if t.1 ≠ 1 then none else some ((t.2.1 % (m : Int)).toNat)

/-- `gen_rsa_methods p q e` builds the RSA-style `(encrypt, decrypt)`
pair; `none` models the exception raised by `modinv` when `e` has no
inverse modulo `(p-1)*(q-1)`. -/
def gen_rsa_methods (p q e : Nat) : Option ((Nat → Nat) × (Nat → Nat)) :=
  let n := p * q
  let phi := (p - 1) * (q - 1)
  (modinv e phi).map (fun d => (fun x => x ^ e % n, fun x => x ^ d % n))

/-! ## The CrunchNAT facade -/

inductive Algo
  | simple
  | stripe
  | secure
deriving DecidableEq, Repr

/-- The constructed facade: the two networks, the selected algorithm and
the RSA key material `(p, q, e)` together with the decryption exponent
`d` derived at construction time (the Python object stores the
`encrypt`/`decrypt` closures, which are exactly `x ^ e % (p*q)` and
`x ^ d % (p*q)`). -/
structure CrunchNAT where
  external_network : IPNetwork
  internal_network : IPNetwork
  algo : Algo
  p : Nat
  q : Nat
  e : Nat
  d : Nat
deriving Repr

/-- Errors raised by `CrunchNAT.__init__`. -/
inductive InitError
  | excessiveCrunchFactor
  | invalidKeys
  | noModularInverse
deriving DecidableEq, Repr

def CrunchNAT.crunch_factor (c : CrunchNAT) : Int :=
  (c.external_network.prefixlen : Int) - (c.internal_network.prefixlen : Int)

/-- `CrunchNAT.__init__`: reject a crunch factor above
`MAX_CRUNCH_FACTOR`; for the secure algorithm also validate the keys and
derive the decryption exponent. -/
def CrunchNAT.init (ext int : IPNetwork) (algo : Algo) (p q e : Nat) :
    Except InitError CrunchNAT :=
  if ((ext.prefixlen : Int) - (int.prefixlen : Int)) > MAX_CRUNCH_FACTOR then
    .error .excessiveCrunchFactor
  else
    match algo with
    | .secure =>
      if p * q > USABLE_PORTS then .error .invalidKeys
      else
        match modinv e ((p - 1) * (q - 1)) with
        | none => .error .noModularInverse
        | some d => .ok ⟨ext, int, algo, p, q, e, d⟩
    | _ => .ok ⟨ext, int, algo, p, q, e, 0⟩

def CrunchNAT.hosts_per_external (c : CrunchNAT) : Nat :=
  c.internal_network.num_addresses / c.external_network.num_addresses

def CrunchNAT.num_ports (c : CrunchNAT) : Nat :=
  if c.algo = Algo.secure then c.p * c.q else USABLE_PORTS

def CrunchNAT.ports_per_host (c : CrunchNAT) : Nat :=
  c.num_ports / c.hosts_per_external

def CrunchNAT.n (c : CrunchNAT) : Nat := c.p * c.q

/-- The `encrypt` closure: `pow(x, e, n)`. -/
def CrunchNAT.encrypt (c : CrunchNAT) (x : Nat) : Nat := x ^ c.e % c.n

/-- The `decrypt` closure: `pow(x, d, n)`. -/
def CrunchNAT.decrypt (c : CrunchNAT) (x : Nat) : Nat := x ^ c.d % c.n

/-- The `decrypt` closure on a possibly negative argument, as Python's
`pow(x, d, n)`: the result is the non-negative residue of `x ^ d`
modulo `n`. -/
def CrunchNAT.decryptZ (c : CrunchNAT) (x : Int) : Nat :=
  ((x ^ c.d) % (c.n : Int)).toNat

/-- Python `range(start, stop, step)` for a positive step, as a list. -/
def pyRange (start stop step : Nat) : List Nat :=
  (List.range ((stop - start + step - 1) / step)).map (fun i => start + i * step)

/-! ### Forward maps.  `none` models a raised exception
(an out-of-range network index). -/

def CrunchNAT.simple_forward (c : CrunchNAT) (a : Nat) : Option (Nat × List Nat) :=
  let internal_offset : Int := (a : Int) - (c.internal_network.network_address : Int)
  let external_offset : Int := Int.fdiv internal_offset (c.hosts_per_external : Int)
  (c.external_network.getItem external_offset).map fun external_address =>
    let lo_port : Nat := RESERVED_PORTS +
      c.ports_per_host * (Int.fmod internal_offset (c.hosts_per_external : Int)).toNat
    (external_address, List.range' lo_port c.ports_per_host)

def CrunchNAT.stripe_forward (c : CrunchNAT) (a : Nat) : Option (Nat × List Nat) :=
  let internal_offset : Int := (a : Int) - (c.internal_network.network_address : Int)
  let external_offset : Int := Int.fdiv internal_offset (c.hosts_per_external : Int)
  (c.external_network.getItem external_offset).map fun external_address =>
    let start : Nat := RESERVED_PORTS +
      (Int.fmod internal_offset (c.hosts_per_external : Int)).toNat
    (external_address,
      (pyRange start PORTS_PER_IP c.hosts_per_external).take c.ports_per_host)

def CrunchNAT.secure_forward (c : CrunchNAT) (a : Nat) : Option (Nat × List Nat) :=
  let internal_offset : Int := (a : Int) - (c.internal_network.network_address : Int)
  let external_offset : Int := Int.fdiv internal_offset (c.hosts_per_external : Int)
  (c.external_network.getItem external_offset).map fun external_address =>
    let port_offset : Nat := (Int.fmod internal_offset (c.hosts_per_external : Int)).toNat
    let ports : List Nat :=
      List.insertionSort (· ≤ ·)
        ((List.range' (port_offset * c.ports_per_host) c.ports_per_host).map
          (fun x => RESERVED_PORTS + c.encrypt x))
    (external_address, ports)

/-! ### Reverse maps -/

def CrunchNAT.simple_reverse (c : CrunchNAT) (ea : Nat) (port : Nat) : Option Nat :=
  let external_offset : Int := (ea : Int) - (c.external_network.network_address : Int)
  let internal_offset1 : Int := external_offset * (c.hosts_per_external : Int)
  let internal_offset2 : Int :=
    Int.fdiv ((port : Int) - (RESERVED_PORTS : Int)) (c.ports_per_host : Int)
  c.internal_network.getItem (internal_offset1 + internal_offset2)

def CrunchNAT.stripe_reverse (c : CrunchNAT) (ea : Nat) (port : Nat) : Option Nat :=
  let external_offset : Int := (ea : Int) - (c.external_network.network_address : Int)
  let internal_offset1 : Int := external_offset * (c.hosts_per_external : Int)
  let internal_offset2 : Int :=
    Int.fmod ((port : Int) - (RESERVED_PORTS : Int)) (c.hosts_per_external : Int)
  c.internal_network.getItem (internal_offset1 + internal_offset2)

def CrunchNAT.secure_reverse (c : CrunchNAT) (ea : Nat) (port : Nat) : Option Nat :=
  let external_offset : Int := (ea : Int) - (c.external_network.network_address : Int)
  let internal_offset1 : Int := external_offset * (c.hosts_per_external : Int)
  let internal_offset2 : Nat :=
    c.decryptZ ((port : Int) - (RESERVED_PORTS : Int)) / c.ports_per_host
  c.internal_network.getItem (internal_offset1 + (internal_offset2 : Int))

/-- Algorithm dispatch, as `getattr(self, algo + '_forward')`. -/
def CrunchNAT.forward (c : CrunchNAT) : Nat → Option (Nat × List Nat) :=
  match c.algo with
  | .simple => c.simple_forward
  | .stripe => c.stripe_forward
  | .secure => c.secure_forward

/-- Algorithm dispatch, as `getattr(self, algo + '_reverse')`. -/
def CrunchNAT.reverse (c : CrunchNAT) : Nat → Nat → Option Nat :=
  match c.algo with
  | .simple => c.simple_reverse
  | .stripe => c.stripe_reverse
  | .secure => c.secure_reverse

/-! ### Self-checks -/

/-- The loop body of `check_forward_collisions`, iterating over the
remaining offsets with the accumulated collision list and port set. -/
def CrunchNAT.cfc_go (c : CrunchNAT) (collisions : List Nat) (all_ports : Finset Nat) :
    List Nat → Option (List Nat)
  | [] => some collisions
  | offset :: rest =>
    match c.internal_network.getItem (offset : Int) with
    | none => none
    | some internal_address =>
      match c.forward internal_address with
      | none => none
      | some pr =>
        let collisions' :=
          if (all_ports ∩ pr.2.toFinset).Nonempty then
            collisions ++ [internal_address]
          else collisions
        c.cfc_go collisions' (all_ports ∪ pr.2.toFinset) rest

/-- `check_forward_collisions`: walk the first `hosts_per_external`
internal hosts, collecting those whose port set meets a previously seen
port.  `none` models a raised exception inside the loop. -/
def CrunchNAT.check_forward_collisions (c : CrunchNAT) : Option (List Nat) :=
  c.cfc_go [] ∅ (List.range c.hosts_per_external)

/-- Python truthiness of the optional `count` argument: `None` and `0`
are both falsy. -/
def pyFalsy : Option Nat → Bool
  | none => true
  | some k => k = 0

/-- `check_bijection(count)`: for the first `count` internal hosts
(default `hosts_per_external`; a falsy `count` is replaced by the
default), check that reverse inverts forward on every emitted port. -/
def CrunchNAT.check_bijection (c : CrunchNAT) (count : Option Nat) : Option Bool :=
  let cnt := if pyFalsy count then c.hosts_per_external else count.getD 0
  (List.range cnt).foldlM
    (fun bijective offset => do
      let internal_address ← c.internal_network.getItem (offset : Int)
      let pr ← c.forward internal_address
      pr.2.foldlM
        (fun b port => do
          let r ← c.reverse pr.1 port
          pure (if r ≠ internal_address then false else b))
        bijective)
    true

/-! ## Well-formed facades -/

/-- Well-formed construction parameters: valid prefix lengths, a crunch
factor in `[0, MAX_CRUNCH_FACTOR]`, at least one port per host, and for
the secure algorithm valid RSA keys whose decryption exponent is the one
derived at construction (`modinv` succeeded).  The default keys
`(251, 257, 19)` satisfy the secure-key condition. -/
def CrunchNAT.WF (c : CrunchNAT) : Prop :=
  c.external_network.prefixlen ≤ 32 ∧
  c.internal_network.prefixlen ≤ c.external_network.prefixlen ∧
  c.crunch_factor ≤ MAX_CRUNCH_FACTOR ∧
  1 ≤ c.ports_per_host ∧
  (c.algo = Algo.secure →
    Nat.Prime c.p ∧ Nat.Prime c.q ∧ c.p ≠ c.q ∧ c.p * c.q ≤ USABLE_PORTS ∧
    modinv c.e ((c.p - 1) * (c.q - 1)) = some c.d)

/-- The port list that each algorithm assigns to bucket `b` (the value
`internal_offset % hosts_per_external`). -/
def portsOf (c : CrunchNAT) (b : Nat) : List Nat :=
  match c.algo with
  | .simple => List.range' (RESERVED_PORTS + c.ports_per_host * b) c.ports_per_host
  | .stripe =>
      (pyRange (RESERVED_PORTS + b) PORTS_PER_IP c.hosts_per_external).take
        c.ports_per_host
  | .secure =>
      List.insertionSort (· ≤ ·)
        ((List.range' (b * c.ports_per_host) c.ports_per_host).map
          (fun x => RESERVED_PORTS + c.encrypt x))

/-! ## Concrete facades (the seed scenario of the test suite:
external `192.0.2.0/24`, internal `10.0.0.0/16`) -/

def extNet0 : IPNetwork := ⟨3221225984, 24⟩

def intNet0 : IPNetwork := ⟨167772160, 16⟩

def cnatSimple : CrunchNAT := ⟨extNet0, intNet0, Algo.simple, 251, 257, 19, 0⟩

def cnatStripe : CrunchNAT := ⟨extNet0, intNet0, Algo.stripe, 251, 257, 19, 0⟩

def cnatSecure : CrunchNAT := ⟨extNet0, intNet0, Algo.secure, 251, 257, 19, 23579⟩

/-- The concrete `(encrypt, decrypt)` pair produced for the default
keys: `d = 23579` is the inverse of `19` modulo `64000`. -/
def rsaDefaultPair : (Nat → Nat) × (Nat → Nat) :=
  (fun x => x ^ 19 % 64507, fun x => x ^ 23579 % 64507)

/-- The bucket term each reverse algorithm derives from the port:
`(P - RESERVED_PORTS) // ports_per_host` for simple,
`(P - RESERVED_PORTS) % hosts_per_external` for stripe,
`decrypt(P - RESERVED_PORTS) // ports_per_host` for secure. -/
def CrunchNAT.bucketOfPort (c : CrunchNAT) (port : Nat) : Int :=
  match c.algo with
  | .simple =>
      Int.fdiv ((port : Int) - (RESERVED_PORTS : Int)) (c.ports_per_host : Int)
  | .stripe =>
      Int.fmod ((port : Int) - (RESERVED_PORTS : Int)) (c.hosts_per_external : Int)
  | .secure =>
      ((c.decryptZ ((port : Int) - (RESERVED_PORTS : Int)) /
        c.ports_per_host : Nat) : Int)

lemma IPNetwork.num_addresses_pos (net : IPNetwork) : 0 < net.num_addresses :=
  Nat.pos_pow_of_pos _ (by norm_num)

lemma IPNetwork.broadcast_cast (net : IPNetwork) :
    (net.broadcast_address : Int) =
      (net.network_address : Int) + (net.num_addresses : Int) - 1 := by
  have := net.num_addresses_pos
  unfold IPNetwork.broadcast_address
  omega

lemma CrunchNAT.hpe_eq (c : CrunchNAT) (h : c.WF) :
    c.hosts_per_external =
      2 ^ (c.external_network.prefixlen - c.internal_network.prefixlen) := by
  obtain ⟨h1, h2, -⟩ := h
  unfold CrunchNAT.hosts_per_external IPNetwork.num_addresses
  rw [Nat.pow_div (by omega) (by norm_num)]
  congr 1
  omega

lemma CrunchNAT.hpe_pos (c : CrunchNAT) (h : c.WF) : 0 < c.hosts_per_external := by
  rw [c.hpe_eq h]; positivity

lemma CrunchNAT.size_eq (c : CrunchNAT) (h : c.WF) :
    c.internal_network.num_addresses =
      c.hosts_per_external * c.external_network.num_addresses := by
  obtain ⟨h1, h2, -⟩ := id h
  rw [c.hpe_eq h]
  unfold IPNetwork.num_addresses
  rw [← pow_add]
  congr 1
  omega

lemma CrunchNAT.num_ports_le (c : CrunchNAT) (h : c.WF) :
    c.num_ports ≤ USABLE_PORTS := by
  unfold CrunchNAT.num_ports
  split
  · exact (h.2.2.2.2 (by assumption)).2.2.2.1
  · exact le_refl _

lemma CrunchNAT.hpe_mul_pph_le (c : CrunchNAT) :
    c.hosts_per_external * c.ports_per_host ≤ c.num_ports :=
  Nat.mul_div_le _ _

/-! ## Network indexing lemmas -/

lemma IPNetwork.getItem_nonneg (net : IPNetwork) (k : Nat)
    (hk : k < net.num_addresses) :
    net.getItem (k : Int) = some (net.network_address + k) := by
  have hb := net.broadcast_cast
  unfold IPNetwork.getItem
  rw [if_pos (by positivity), if_neg (by omega)]
  rw [Int.toNat_natCast]

lemma IPNetwork.getItem_neg (net : IPNetwork) (k : Int) (h1 : k < 0)
    (h2 : -(net.num_addresses : Int) ≤ k) :
    net.getItem k =
      some ((net.network_address : Int) + (net.num_addresses : Int) + k).toNat := by
  have hb := net.broadcast_cast
  unfold IPNetwork.getItem
  rw [if_neg (by omega), if_neg (by omega)]
  congr 1
  omega

lemma IPNetwork.getItem_none_iff (net : IPNetwork) (k : Int) :
    net.getItem k = none ↔
      ((net.num_addresses : Int) ≤ k ∨ k < -(net.num_addresses : Int)) := by
  have hb := net.broadcast_cast
  have hpos := net.num_addresses_pos
  unfold IPNetwork.getItem
  split
  · split
    · simpa using by omega
    · simpa using by omega
  · split
    · simpa using by omega
    · simpa using by omega

/-! ## Correctness of the modular-arithmetic helpers -/

theorem egcd_bezout : ∀ (a b : Nat),
    (egcd a b).1 = (Nat.gcd a b : Int) ∧
    (a : Int) * (egcd a b).2.1 + (b : Int) * (egcd a b).2.2 = (egcd a b).1 := by
  intro a
  induction a using Nat.strong_induction_on with
  | _ a ih =>
    intro b
    rw [egcd]
    split
    · next h =>
      subst h
      simp
    · next h =>
      have hpos : 0 < a := Nat.pos_of_ne_zero h
      obtain ⟨ih1, ih2⟩ := ih (b % a) (Nat.mod_lt _ hpos) a
      have hb : (b : Int) = (a : Int) * ((b / a : Nat) : Int) + ((b % a : Nat) : Int) := by
        exact_mod_cast (Nat.div_add_mod b a).symm
      dsimp only
      constructor
      · rw [Nat.gcd_rec]
        exact ih1
      · linear_combination ih2 + (egcd (b % a) a).2.1 * hb

theorem modinv_mul_mod {a m d : Nat} (hm : 2 ≤ m) (h : modinv a m = some d) :
    a * d % m = 1 := by
  unfold modinv at h
  dsimp only at h
  split at h
  · exact absurd h (by simp)
  · next hg =>
    rw [not_not] at hg
    obtain ⟨-, h2⟩ := egcd_bezout a m
    rw [hg] at h2
    injection h with hd
    have hmpos : (0 : Int) < (m : Int) := by exact_mod_cast Nat.lt_of_lt_of_le Nat.zero_lt_two hm
    have hdle : (0 : Int) ≤ (egcd a m).2.1 % (m : Int) := Int.emod_nonneg _ (by omega)
    have hdZ : (d : Int) = (egcd a m).2.1 % (m : Int) := by
      rw [← hd]
      exact Int.toNat_of_nonneg hdle
    have key : ((a : Int) * (d : Int)) % (m : Int) = 1 := by
      rw [hdZ, Int.mul_emod, Int.emod_emod_of_dvd _ dvd_rfl, ← Int.mul_emod]
      have : (a : Int) * (egcd a m).2.1 = 1 - (m : Int) * (egcd a m).2.2 := by
        linarith [h2]
      rw [this, Int.sub_emod, Int.mul_emod_right, sub_zero, Int.emod_emod_of_dvd _ dvd_rfl]
      rw [Int.emod_eq_of_lt (by norm_num) (by exact_mod_cast hm)]
    have : ((a * d % m : Nat) : Int) = 1 := by
      push_cast
      exact key
    exact_mod_cast this

theorem zmod_pow_cycle {p : Nat} (hp : Nat.Prime p) (k : Nat) (x : ZMod p) :
    x ^ (k * (p - 1) + 1) = x := by
  haveI : Fact (Nat.Prime p) := ⟨hp⟩
  by_cases hx : x = 0
  · subst hx
    rw [zero_pow (by omega)]
  · rw [pow_add, pow_mul', pow_one, ZMod.pow_card_sub_one_eq_one hx, one_pow, one_mul]

theorem pow_cycle_modeq {p : Nat} (hp : Nat.Prime p) (k x : Nat) :
    x ^ (k * (p - 1) + 1) ≡ x [MOD p] := by
  have h := zmod_pow_cycle hp k (x : ZMod p)
  rwa [← Nat.cast_pow, ZMod.natCast_eq_natCast_iff] at h

/-- RSA round-trip: with distinct primes `p`, `q` and exponents `e`, `d`
inverse modulo `(p-1)*(q-1)`, decryption inverts encryption on the whole
of `[0, p*q)` - coprimality of the plaintext with `p*q` is not needed. -/
theorem rsa_roundtrip {p q e d : Nat} (hp : Nat.Prime p) (hq : Nat.Prime q)
    (hpq : p ≠ q) (hed : e * d % ((p - 1) * (q - 1)) = 1) :
    ∀ x, x < p * q → (x ^ e % (p * q)) ^ d % (p * q) = x := by
  intro x hx
  have h1 : (x ^ e % (p * q)) ^ d % (p * q) = x ^ (e * d) % (p * q) := by
    rw [← Nat.pow_mod, ← pow_mul]
  rw [h1]
  have hsplit := Nat.div_add_mod (e * d) ((p - 1) * (q - 1))
  rw [hed] at hsplit
  set K := e * d / ((p - 1) * (q - 1)) with hK
  have hedp : e * d = (K * (q - 1)) * (p - 1) + 1 := by
    rw [← hsplit]
    ring
  have hedq : e * d = (K * (p - 1)) * (q - 1) + 1 := by
    rw [← hsplit]
    ring
  have hmodp : x ^ (e * d) ≡ x [MOD p] := by
    rw [hedp]
    exact pow_cycle_modeq hp _ x
  have hmodq : x ^ (e * d) ≡ x [MOD q] := by
    rw [hedq]
    exact pow_cycle_modeq hq _ x
  have hco : Nat.Coprime p q := (Nat.coprime_primes hp hq).mpr hpq
  have hmodn : x ^ (e * d) ≡ x [MOD p * q] :=
    (Nat.modEq_and_modEq_iff_modEq_mul hco).mp ⟨hmodp, hmodq⟩
  calc x ^ (e * d) % (p * q) = x % (p * q) := hmodn
    _ = x := Nat.mod_eq_of_lt hx

/-- For distinct primes, the totient modulus is at least 2. -/
lemma phi_two_le {p q : Nat} (hp : Nat.Prime p) (hq : Nat.Prime q) (hpq : p ≠ q) :
    2 ≤ (p - 1) * (q - 1) := by
  have h2p := hp.two_le
  have h2q := hq.two_le
  rcases Nat.lt_or_ge p 3 with h3 | h3
  · have hq3 : 3 ≤ q := by
      rcases Nat.lt_or_ge q 3 with hq3 | hq3
      · omega
      · exact hq3
    have : 1 ≤ p - 1 := by omega
    have : 2 ≤ q - 1 := by omega
    nlinarith
  · have : 2 ≤ p - 1 := by omega
    have : 1 ≤ q - 1 := by omega
    nlinarith

/-! ## Shapes of the forward port lists -/

lemma CrunchNAT.eo_lt (c : CrunchNAT) (h : c.WF) {io : Nat}
    (hio : io < c.internal_network.num_addresses) :
    io / c.hosts_per_external < c.external_network.num_addresses := by
  rw [Nat.div_lt_iff_lt_mul (c.hpe_pos h)]
  calc io < c.internal_network.num_addresses := hio
    _ = c.external_network.num_addresses * c.hosts_per_external := by
        rw [c.size_eq h]; ring

lemma CrunchNAT.idx_lt (c : CrunchNAT) (h : c.WF) {eo b : Nat}
    (heo : eo < c.external_network.num_addresses)
    (hb : b < c.hosts_per_external) :
    eo * c.hosts_per_external + b < c.internal_network.num_addresses := by
  rw [c.size_eq h]
  have h1 : eo * c.hosts_per_external + b < (eo + 1) * c.hosts_per_external := by
    rw [Nat.succ_mul]
    omega
  have h2 : (eo + 1) * c.hosts_per_external ≤
      c.external_network.num_addresses * c.hosts_per_external :=
    Nat.mul_le_mul_right _ heo
  calc eo * c.hosts_per_external + b
      < (eo + 1) * c.hosts_per_external := h1
    _ ≤ c.external_network.num_addresses * c.hosts_per_external := h2
    _ = c.hosts_per_external * c.external_network.num_addresses := Nat.mul_comm _ _

lemma offset_cast (base io : Nat) :
    ((base + io : Nat) : Int) - (base : Int) = (io : Int) := by
  push_cast
  ring

/-- For an in-range internal offset, each forward map succeeds, yielding
the external address at index `io / hosts_per_external` and the bucket
port list `portsOf c (io % hosts_per_external)`. -/
lemma CrunchNAT.forward_eq (c : CrunchNAT) (h : c.WF) (io : Nat)
    (hio : io < c.internal_network.num_addresses) :
    c.forward (c.internal_network.network_address + io) =
      some (c.external_network.network_address + io / c.hosts_per_external,
        portsOf c (io % c.hosts_per_external)) := by
  have hfdiv : Int.fdiv (io : Int) (c.hosts_per_external : Int) =
      ((io / c.hosts_per_external : Nat) : Int) := (Int.ofNat_fdiv _ _).symm
  have hfmod : Int.fmod (io : Int) (c.hosts_per_external : Int) =
      ((io % c.hosts_per_external : Nat) : Int) := (Int.ofNat_fmod _ _).symm
  have heo := c.eo_lt h hio
  have hget := c.external_network.getItem_nonneg _ heo
  unfold CrunchNAT.forward
  cases hAlgo : c.algo with
  | simple =>
    unfold CrunchNAT.simple_forward
    dsimp only
    rw [offset_cast, hfdiv, hfmod, hget, Option.map_some', portsOf, hAlgo,
      Int.toNat_natCast]
  | stripe =>
    unfold CrunchNAT.stripe_forward
    dsimp only
    rw [offset_cast, hfdiv, hfmod, hget, Option.map_some', portsOf, hAlgo,
      Int.toNat_natCast]
  | secure =>
    unfold CrunchNAT.secure_forward
    dsimp only
    rw [offset_cast, hfdiv, hfmod, hget, Option.map_some', portsOf, hAlgo,
      Int.toNat_natCast]

/-! ## Facade-level RSA facts -/

lemma CrunchNAT.n_pos (c : CrunchNAT) (h : c.WF) (hsec : c.algo = Algo.secure) :
    0 < c.n := by
  obtain ⟨hp, hq, -⟩ := h.2.2.2.2 hsec
  exact Nat.mul_pos hp.pos hq.pos

lemma CrunchNAT.encrypt_lt (c : CrunchNAT) (h : c.WF) (hsec : c.algo = Algo.secure)
    (x : Nat) : c.encrypt x < c.n :=
  Nat.mod_lt _ (c.n_pos h hsec)

lemma CrunchNAT.decrypt_encrypt (c : CrunchNAT) (h : c.WF)
    (hsec : c.algo = Algo.secure) (x : Nat) (hx : x < c.n) :
    c.decrypt (c.encrypt x) = x := by
  obtain ⟨hp, hq, hpq, -, hinv⟩ := h.2.2.2.2 hsec
  have hed := modinv_mul_mod (phi_two_le hp hq hpq) hinv
  exact rsa_roundtrip hp hq hpq hed x hx

lemma CrunchNAT.decryptZ_natCast (c : CrunchNAT) (x : Nat) :
    c.decryptZ (x : Int) = c.decrypt x := by
  unfold CrunchNAT.decryptZ CrunchNAT.decrypt
  rw [← Nat.cast_pow]
  rw [← Int.natCast_mod]
  rw [Int.toNat_natCast]

lemma CrunchNAT.num_ports_secure (c : CrunchNAT) (hsec : c.algo = Algo.secure) :
    c.num_ports = c.n := by
  unfold CrunchNAT.num_ports CrunchNAT.n
  rw [if_pos hsec]

/-! ## Reverse-map formulas on in-range inputs -/

lemma CrunchNAT.reverse_common (c : CrunchNAT) (h : c.WF) {eo b : Nat}
    (heo : eo < c.external_network.num_addresses)
    (hb : b < c.hosts_per_external) :
    c.internal_network.getItem
        ((eo : Int) * (c.hosts_per_external : Int) + (b : Int)) =
      some (c.internal_network.network_address +
        (eo * c.hosts_per_external + b)) := by
  have hidx := c.idx_lt h heo hb
  have hcast : (eo : Int) * (c.hosts_per_external : Int) + (b : Int) =
      ((eo * c.hosts_per_external + b : Nat) : Int) := by
    push_cast
    ring
  rw [hcast]
  exact c.internal_network.getItem_nonneg _ hidx

lemma CrunchNAT.simple_reverse_eq (c : CrunchNAT) (h : c.WF) {eo b j : Nat}
    (heo : eo < c.external_network.num_addresses)
    (hb : b < c.hosts_per_external) (hj : j < c.ports_per_host) :
    c.simple_reverse (c.external_network.network_address + eo)
        (RESERVED_PORTS + (c.ports_per_host * b + j)) =
      some (c.internal_network.network_address +
        (eo * c.hosts_per_external + b)) := by
  unfold CrunchNAT.simple_reverse
  dsimp only
  rw [offset_cast]
  have hport : ((RESERVED_PORTS + (c.ports_per_host * b + j) : Nat) : Int) -
      (RESERVED_PORTS : Int) = ((c.ports_per_host * b + j : Nat) : Int) := by
    push_cast
    ring
  rw [hport]
  have hdiv : Int.fdiv ((c.ports_per_host * b + j : Nat) : Int)
      (c.ports_per_host : Int) = (b : Int) := by
    rw [(Int.ofNat_fdiv _ _).symm]
    congr 1
    rw [Nat.mul_comm, Nat.add_comm, Nat.add_mul_div_right _ _ (h.2.2.2.1), Nat.div_eq_of_lt hj]
    omega
  rw [hdiv]
  exact c.reverse_common h heo hb

lemma CrunchNAT.stripe_reverse_eq (c : CrunchNAT) (h : c.WF) {eo b k : Nat}
    (heo : eo < c.external_network.num_addresses)
    (hb : b < c.hosts_per_external) :
    c.stripe_reverse (c.external_network.network_address + eo)
        (RESERVED_PORTS + (b + k * c.hosts_per_external)) =
      some (c.internal_network.network_address +
        (eo * c.hosts_per_external + b)) := by
  unfold CrunchNAT.stripe_reverse
  dsimp only
  rw [offset_cast]
  have hport : ((RESERVED_PORTS + (b + k * c.hosts_per_external) : Nat) : Int) -
      (RESERVED_PORTS : Int) = ((b + k * c.hosts_per_external : Nat) : Int) := by
    push_cast
    ring
  rw [hport]
  have hmod : Int.fmod ((b + k * c.hosts_per_external : Nat) : Int)
      (c.hosts_per_external : Int) = (b : Int) := by
    rw [(Int.ofNat_fmod _ _).symm]
    congr 1
    rw [Nat.add_mul_mod_self_right, Nat.mod_eq_of_lt hb]
  rw [hmod]
  exact c.reverse_common h heo hb

lemma CrunchNAT.secure_reverse_eq (c : CrunchNAT) (h : c.WF)
    (hsec : c.algo = Algo.secure) {eo b i : Nat}
    (heo : eo < c.external_network.num_addresses)
    (hb : b < c.hosts_per_external)
    (hi1 : b * c.ports_per_host ≤ i) (hi2 : i < (b + 1) * c.ports_per_host) :
    c.secure_reverse (c.external_network.network_address + eo)
        (RESERVED_PORTS + c.encrypt i) =
      some (c.internal_network.network_address +
        (eo * c.hosts_per_external + b)) := by
  have hi_lt_n : i < c.n := by
    have h1 : (b + 1) * c.ports_per_host ≤
        c.hosts_per_external * c.ports_per_host :=
      Nat.mul_le_mul_right _ hb
    have h2 := c.hpe_mul_pph_le
    have h3 := c.num_ports_secure hsec
    omega
  unfold CrunchNAT.secure_reverse
  dsimp only
  rw [offset_cast]
  have hport : ((RESERVED_PORTS + c.encrypt i : Nat) : Int) -
      (RESERVED_PORTS : Int) = ((c.encrypt i : Nat) : Int) := by
    push_cast
    ring
  rw [hport, c.decryptZ_natCast, c.decrypt_encrypt h hsec i hi_lt_n]
  have hdiv : i / c.ports_per_host = b :=
    Nat.div_eq_of_lt_le hi1 hi2
  rw [hdiv]
  exact c.reverse_common h heo hb

/-! ## Membership, length and distinctness of the bucket port lists -/

lemma mem_portsOf_simple (c : CrunchNAT) (hc : c.algo = Algo.simple) {b P : Nat} :
    P ∈ portsOf c b ↔
      ∃ j, j < c.ports_per_host ∧
        P = RESERVED_PORTS + (c.ports_per_host * b + j) := by
  unfold portsOf
  rw [hc]
  rw [List.mem_range'_1]
  constructor
  · rintro ⟨h1, h2⟩
    exact ⟨P - (RESERVED_PORTS + c.ports_per_host * b), by omega, by omega⟩
  · rintro ⟨j, hj, rfl⟩
    omega

lemma stripe_ports_eq (c : CrunchNAT) (h : c.WF) {b : Nat}
    (hb : b < c.hosts_per_external) :
    (pyRange (RESERVED_PORTS + b) PORTS_PER_IP c.hosts_per_external).take
        c.ports_per_host =
      (List.range c.ports_per_host).map
        (fun k => RESERVED_PORTS + b + k * c.hosts_per_external) := by
  unfold pyRange
  rw [← List.map_take, List.take_range]
  have h1 : c.hosts_per_external * c.ports_per_host ≤ c.num_ports :=
    c.hpe_mul_pph_le
  have h2 := c.num_ports_le h
  have hL : c.ports_per_host ≤
      (PORTS_PER_IP - (RESERVED_PORTS + b) + c.hosts_per_external - 1) /
        c.hosts_per_external := by
    rw [Nat.le_div_iff_mul_le (c.hpe_pos h)]
    have h3 : c.ports_per_host * c.hosts_per_external =
        c.hosts_per_external * c.ports_per_host := Nat.mul_comm _ _
    rw [h3]
    simp only [PORTS_PER_IP, RESERVED_PORTS, USABLE_PORTS] at h2 ⊢
    omega
  rw [Nat.min_eq_left hL]

lemma mem_portsOf_stripe (c : CrunchNAT) (h : c.WF) (hc : c.algo = Algo.stripe)
    {b P : Nat} (hb : b < c.hosts_per_external) :
    P ∈ portsOf c b ↔
      ∃ k, k < c.ports_per_host ∧
        P = RESERVED_PORTS + b + k * c.hosts_per_external := by
  unfold portsOf
  rw [hc, stripe_ports_eq c h hb]
  constructor
  · intro hP
    obtain ⟨k, hk, hkP⟩ := List.mem_map.mp hP
    exact ⟨k, List.mem_range.mp hk, hkP.symm⟩
  · rintro ⟨k, hk, rfl⟩
    exact List.mem_map.mpr ⟨k, List.mem_range.mpr hk, rfl⟩

lemma mem_portsOf_secure (c : CrunchNAT) (hc : c.algo = Algo.secure) {b P : Nat} :
    P ∈ portsOf c b ↔
      ∃ i, b * c.ports_per_host ≤ i ∧
        i < b * c.ports_per_host + c.ports_per_host ∧
        P = RESERVED_PORTS + c.encrypt i := by
  unfold portsOf
  rw [hc]
  rw [List.Perm.mem_iff (List.perm_insertionSort _ _)]
  constructor
  · intro hP
    obtain ⟨i, hi, hiP⟩ := List.mem_map.mp hP
    obtain ⟨hi1, hi2⟩ := List.mem_range'_1.mp hi
    exact ⟨i, hi1, hi2, hiP.symm⟩
  · rintro ⟨i, hi1, hi2, rfl⟩
    exact List.mem_map.mpr ⟨i, List.mem_range'_1.mpr ⟨hi1, hi2⟩, rfl⟩

lemma length_portsOf (c : CrunchNAT) (h : c.WF) {b : Nat}
    (hb : b < c.hosts_per_external) :
    (portsOf c b).length = c.ports_per_host := by
  unfold portsOf
  cases hA : c.algo
  · simp
  · rw [stripe_ports_eq c h hb]
    simp
  · simp [List.length_insertionSort]

lemma nodup_portsOf (c : CrunchNAT) (h : c.WF) {b : Nat}
    (hb : b < c.hosts_per_external) :
    (portsOf c b).Nodup := by
  unfold portsOf
  cases hA : c.algo
  · exact List.nodup_range' _ _
  · rw [stripe_ports_eq c h hb]
    refine List.Nodup.map ?_ (List.nodup_range _)
    intro k k' hkk
    simp only at hkk
    have hpe := c.hpe_pos h
    have : k * c.hosts_per_external = k' * c.hosts_per_external := by omega
    exact Nat.eq_of_mul_eq_mul_right hpe this
  · rw [List.Perm.nodup_iff (List.perm_insertionSort _ _)]
    refine List.Nodup.map_on ?_ (List.nodup_range' _ _)
    intro x hx y hy hxy
    obtain ⟨hx1, hx2⟩ := List.mem_range'_1.mp hx
    obtain ⟨hy1, hy2⟩ := List.mem_range'_1.mp hy
    have hxn : x < c.n := by
      have h1 : (b + 1) * c.ports_per_host ≤
          c.hosts_per_external * c.ports_per_host := Nat.mul_le_mul_right _ hb
      have h2 := c.hpe_mul_pph_le
      have h3 := c.num_ports_secure hA
      have h4 : (b + 1) * c.ports_per_host =
          b * c.ports_per_host + c.ports_per_host := by ring
      omega
    have hyn : y < c.n := by
      have h1 : (b + 1) * c.ports_per_host ≤
          c.hosts_per_external * c.ports_per_host := Nat.mul_le_mul_right _ hb
      have h2 := c.hpe_mul_pph_le
      have h3 := c.num_ports_secure hA
      have h4 : (b + 1) * c.ports_per_host =
          b * c.ports_per_host + c.ports_per_host := by ring
      omega
    have henc : c.encrypt x = c.encrypt y := by omega
    calc x = c.decrypt (c.encrypt x) := (c.decrypt_encrypt h hA x hxn).symm
      _ = c.decrypt (c.encrypt y) := by rw [henc]
      _ = y := c.decrypt_encrypt h hA y hyn

lemma modinv_default :
    modinv DEFAULT_E ((DEFAULT_P - 1) * (DEFAULT_Q - 1)) = some 23579 := by
  simp [modinv, egcd, DEFAULT_E, DEFAULT_P, DEFAULT_Q]

lemma cnatSimple_wf : cnatSimple.WF := by
  refine ⟨by decide, by decide, by decide, by decide, fun hsec => absurd hsec (by decide)⟩

lemma cnatStripe_wf : cnatStripe.WF := by
  refine ⟨by decide, by decide, by decide, by decide, fun hsec => absurd hsec (by decide)⟩

lemma cnatSecure_wf : cnatSecure.WF := by
  refine ⟨by decide, by decide, by decide, by decide,
    fun _ => ⟨by norm_num [cnatSecure], by norm_num [cnatSecure], by decide, by decide, ?_⟩⟩
  exact modinv_default

/-! ## C1: forward/reverse round-trip -/

/-- C1.  For every well-formed CrunchNAT facade (crunch factor in
`[0, 8]`, `ports_per_host ≥ 1`, valid secure keys when the secure
algorithm is selected) and each algorithm: for every internal address
`a` within `internal_network` and every port `P` in the port list
returned by `forward a`, applying `reverse` to the external address
returned by `forward a` and `P` yields `a` again. -/
theorem forward_reverse_roundtrip (c : CrunchNAT) (hwf : c.WF) (a : Nat)
    (ha1 : c.internal_network.network_address ≤ a)
    (ha2 : a < c.internal_network.network_address +
      c.internal_network.num_addresses)
    (ea : Nat) (ports : List Nat) (hf : c.forward a = some (ea, ports))
    (P : Nat) (hP : P ∈ ports) :
    c.reverse ea P = some a := by
  obtain ⟨io, rfl, hio⟩ : ∃ io, a = c.internal_network.network_address + io ∧
      io < c.internal_network.num_addresses :=
    ⟨a - c.internal_network.network_address, by omega, by omega⟩
  rw [c.forward_eq hwf io hio] at hf
  have hf' := Option.some.inj hf
  rw [Prod.mk.injEq] at hf'
  obtain ⟨h1, h2⟩ := hf'
  subst h1
  subst h2
  have hpe := c.hpe_pos hwf
  have heo := c.eo_lt hwf hio
  have hb : io % c.hosts_per_external < c.hosts_per_external :=
    Nat.mod_lt _ hpe
  have hsplit : io / c.hosts_per_external * c.hosts_per_external +
      io % c.hosts_per_external = io := Nat.div_add_mod' io _
  unfold CrunchNAT.reverse
  cases hA : c.algo with
  | simple =>
    obtain ⟨j, hj, rfl⟩ := (mem_portsOf_simple c hA).mp hP
    have hrev := c.simple_reverse_eq hwf heo hb hj
    rw [hsplit] at hrev
    exact hrev
  | stripe =>
    obtain ⟨k, hk, rfl⟩ := (mem_portsOf_stripe c hwf hA hb).mp hP
    have hrev := c.stripe_reverse_eq hwf (k := k) heo hb
    rw [hsplit] at hrev
    rw [Nat.add_assoc]
    exact hrev
  | secure =>
    obtain ⟨i, hi1, hi2, rfl⟩ := (mem_portsOf_secure c hA).mp hP
    have hi2' : i < (io % c.hosts_per_external + 1) * c.ports_per_host := by
      have : (io % c.hosts_per_external + 1) * c.ports_per_host =
          io % c.hosts_per_external * c.ports_per_host + c.ports_per_host := by
        ring
      omega
    have hrev := c.secure_reverse_eq hwf hA heo hb hi1 hi2'
    rw [hsplit] at hrev
    exact hrev

/-- Witness for C1 at the simple facade of the test suite:
`forward("10.0.0.10") = ("192.0.2.0", range(3544, 3796))` and
`reverse("192.0.2.0", 3600) = "10.0.0.10"`. -/
theorem forward_reverse_roundtrip_witness :
    cnatSimple.reverse 3221225984 3600 = some 167772170 :=
  forward_reverse_roundtrip cnatSimple cnatSimple_wf 167772170 (by decide)
    (by decide) 3221225984 (List.range' 3544 252) (by rfl) 3600 (by decide)

/-! ## Disjointness of bucket port lists -/

lemma CrunchNAT.bucket_lt_n (c : CrunchNAT) (hsec : c.algo = Algo.secure)
    {b i : Nat} (hb : b < c.hosts_per_external)
    (hi2 : i < b * c.ports_per_host + c.ports_per_host) : i < c.n := by
  have h1 : (b + 1) * c.ports_per_host ≤
      c.hosts_per_external * c.ports_per_host := Nat.mul_le_mul_right _ hb
  have h2 := c.hpe_mul_pph_le
  have h3 := c.num_ports_secure hsec
  have h4 : (b + 1) * c.ports_per_host =
      b * c.ports_per_host + c.ports_per_host := by ring
  omega

lemma portsOf_disjoint (c : CrunchNAT) (hwf : c.WF) {b b' : Nat}
    (hb : b < c.hosts_per_external) (hb' : b' < c.hosts_per_external)
    (hne : b ≠ b') {P : Nat} (hPb : P ∈ portsOf c b)
    (hPb' : P ∈ portsOf c b') : False := by
  cases hA : c.algo with
  | simple =>
    obtain ⟨j, hj, hPj⟩ := (mem_portsOf_simple c hA).mp hPb
    obtain ⟨j', hj', hPj'⟩ := (mem_portsOf_simple c hA).mp hPb'
    have he : c.ports_per_host * b + j = c.ports_per_host * b' + j' := by omega
    have h1 : (c.ports_per_host * b + j) / c.ports_per_host = b := by
      apply Nat.div_eq_of_lt_le
      · rw [Nat.mul_comm]
        omega
      · have : (b + 1) * c.ports_per_host =
            c.ports_per_host * b + c.ports_per_host := by ring
        omega
    have h1' : (c.ports_per_host * b' + j') / c.ports_per_host = b' := by
      apply Nat.div_eq_of_lt_le
      · rw [Nat.mul_comm]
        omega
      · have : (b' + 1) * c.ports_per_host =
            c.ports_per_host * b' + c.ports_per_host := by ring
        omega
    apply hne
    calc b = (c.ports_per_host * b + j) / c.ports_per_host := h1.symm
      _ = (c.ports_per_host * b' + j') / c.ports_per_host := by rw [he]
      _ = b' := h1'
  | stripe =>
    obtain ⟨k, hk, hPk⟩ := (mem_portsOf_stripe c hwf hA hb).mp hPb
    obtain ⟨k', hk', hPk'⟩ := (mem_portsOf_stripe c hwf hA hb').mp hPb'
    have he : b + k * c.hosts_per_external = b' + k' * c.hosts_per_external := by
      omega
    have h1 : (b + k * c.hosts_per_external) % c.hosts_per_external = b := by
      rw [Nat.add_mul_mod_self_right, Nat.mod_eq_of_lt hb]
    have h1' : (b' + k' * c.hosts_per_external) % c.hosts_per_external = b' := by
      rw [Nat.add_mul_mod_self_right, Nat.mod_eq_of_lt hb']
    apply hne
    calc b = (b + k * c.hosts_per_external) % c.hosts_per_external := h1.symm
      _ = (b' + k' * c.hosts_per_external) % c.hosts_per_external := by rw [he]
      _ = b' := h1'
  | secure =>
    obtain ⟨i, hi1, hi2, hPi⟩ := (mem_portsOf_secure c hA).mp hPb
    obtain ⟨i', hi1', hi2', hPi'⟩ := (mem_portsOf_secure c hA).mp hPb'
    have hin := c.bucket_lt_n hA hb hi2
    have hin' := c.bucket_lt_n hA hb' hi2'
    have he : c.encrypt i = c.encrypt i' := by omega
    have hii : i = i' := by
      calc i = c.decrypt (c.encrypt i) := (c.decrypt_encrypt hwf hA i hin).symm
        _ = c.decrypt (c.encrypt i') := by rw [he]
        _ = i' := c.decrypt_encrypt hwf hA i' hin'
    apply hne
    have h1 : i / c.ports_per_host = b := by
      apply Nat.div_eq_of_lt_le hi1
      have : (b + 1) * c.ports_per_host =
          b * c.ports_per_host + c.ports_per_host := by ring
      omega
    have h1' : i' / c.ports_per_host = b' := by
      apply Nat.div_eq_of_lt_le hi1'
      have : (b' + 1) * c.ports_per_host =
          b' * c.ports_per_host + c.ports_per_host := by ring
      omega
    calc b = i / c.ports_per_host := h1.symm
      _ = i' / c.ports_per_host := by rw [hii]
      _ = b' := h1'

/-! ## C4: RSA round-trip for the default keys -/

/-- C4.  With the default keys `(p, q, e) = (251, 257, 19)`, the
`encrypt`/`decrypt` pair produced by `gen_rsa_methods` satisfies
`decrypt (encrypt x) = x` for every `x ∈ [0, 64507)`,
`64507 = 251 * 257 = n`; the round-trip holds on all of `[0, n)`, not
only for `x` coprime to `n`. -/
theorem gen_rsa_default_roundtrip (fs : (Nat → Nat) × (Nat → Nat))
    (hgen : gen_rsa_methods DEFAULT_P DEFAULT_Q DEFAULT_E = some fs)
    (x : Nat) (hx : x < 64507) : fs.2 (fs.1 x) = x := by
  unfold gen_rsa_methods at hgen
  dsimp only at hgen
  rw [modinv_default, Option.map_some'] at hgen
  have hfs := (Option.some.inj hgen).symm
  subst hfs
  dsimp only
  have hp : Nat.Prime DEFAULT_P := by norm_num [DEFAULT_P]
  have hq : Nat.Prime DEFAULT_Q := by norm_num [DEFAULT_Q]
  have hpq : DEFAULT_P ≠ DEFAULT_Q := by norm_num [DEFAULT_P, DEFAULT_Q]
  have hed : DEFAULT_E * 23579 % ((DEFAULT_P - 1) * (DEFAULT_Q - 1)) = 1 := by
    norm_num [DEFAULT_E, DEFAULT_P, DEFAULT_Q]
  exact rsa_roundtrip hp hq hpq hed x
    (by norm_num [DEFAULT_P, DEFAULT_Q]; omega)

/-- Witness for C4 at `x = 1294` (the port offset of the test suite's
`reverse("192.0.2.0", 2318)` call). -/
theorem gen_rsa_default_roundtrip_witness :
    rsaDefaultPair.2 (rsaDefaultPair.1 1294) = 1294 :=
  gen_rsa_default_roundtrip rsaDefaultPair
    (by unfold gen_rsa_methods
        dsimp only
        rw [modinv_default]
        rfl)
    1294 (by norm_num)

/-! ## C3: port-range containment -/

/-- C3.  For every well-formed facade and each algorithm, every port
emitted by forward lies in `[RESERVED_PORTS, PORTS_PER_IP) = [1024, 65536)`;
the port list (in particular the stripe list, truncated from the strided
range) has exactly `ports_per_host` elements; and for secure every
emitted port lies in `[RESERVED_PORTS, RESERVED_PORTS + n)`. -/
theorem port_range_containment (c : CrunchNAT) (hwf : c.WF) (a : Nat)
    (ha1 : c.internal_network.network_address ≤ a)
    (ha2 : a < c.internal_network.network_address +
      c.internal_network.num_addresses)
    (ea : Nat) (ports : List Nat) (hf : c.forward a = some (ea, ports)) :
    (∀ P ∈ ports, RESERVED_PORTS ≤ P ∧ P < PORTS_PER_IP) ∧
    ports.length = c.ports_per_host ∧
    (c.algo = Algo.secure → ∀ P ∈ ports, P < RESERVED_PORTS + c.n) := by
  obtain ⟨io, rfl, hio⟩ : ∃ io, a = c.internal_network.network_address + io ∧
      io < c.internal_network.num_addresses :=
    ⟨a - c.internal_network.network_address, by omega, by omega⟩
  rw [c.forward_eq hwf io hio] at hf
  have hf' := Option.some.inj hf
  rw [Prod.mk.injEq] at hf'
  obtain ⟨h1, h2⟩ := hf'
  subst h1
  subst h2
  have hpe := c.hpe_pos hwf
  have hb : io % c.hosts_per_external < c.hosts_per_external :=
    Nat.mod_lt _ hpe
  have hnum := c.num_ports_le hwf
  have hmul := c.hpe_mul_pph_le
  refine ⟨?_, length_portsOf c hwf hb, ?_⟩
  · intro P hP
    cases hA : c.algo with
    | simple =>
      obtain ⟨j, hj, rfl⟩ := (mem_portsOf_simple c hA).mp hP
      have hup : c.ports_per_host * (io % c.hosts_per_external) + j <
          c.hosts_per_external * c.ports_per_host := by
        have e1 : c.ports_per_host * (io % c.hosts_per_external) + j <
            c.ports_per_host * (io % c.hosts_per_external + 1) := by
          rw [Nat.mul_succ]
          omega
        have e2 : c.ports_per_host * (io % c.hosts_per_external + 1) ≤
            c.ports_per_host * c.hosts_per_external :=
          Nat.mul_le_mul_left _ (by omega)
        have e3 : c.ports_per_host * c.hosts_per_external =
            c.hosts_per_external * c.ports_per_host := Nat.mul_comm _ _
        omega
      simp only [USABLE_PORTS, PORTS_PER_IP, RESERVED_PORTS] at *
      omega
    | stripe =>
      obtain ⟨k, hk, rfl⟩ := (mem_portsOf_stripe c hwf hA hb).mp hP
      have hup : io % c.hosts_per_external + k * c.hosts_per_external <
          c.hosts_per_external * c.ports_per_host := by
        have e1 : io % c.hosts_per_external + k * c.hosts_per_external <
            (k + 1) * c.hosts_per_external := by
          rw [Nat.succ_mul]
          omega
        have e2 : (k + 1) * c.hosts_per_external ≤
            c.ports_per_host * c.hosts_per_external :=
          Nat.mul_le_mul_right _ (by omega)
        have e3 : c.ports_per_host * c.hosts_per_external =
            c.hosts_per_external * c.ports_per_host := Nat.mul_comm _ _
        omega
      simp only [USABLE_PORTS, PORTS_PER_IP, RESERVED_PORTS] at *
      omega
    | secure =>
      obtain ⟨i, hi1, hi2, rfl⟩ := (mem_portsOf_secure c hA).mp hP
      have henc := c.encrypt_lt hwf hA i
      have hn : c.n = c.num_ports := (c.num_ports_secure hA).symm
      simp only [USABLE_PORTS, PORTS_PER_IP, RESERVED_PORTS] at *
      omega
  · intro hA P hP
    obtain ⟨i, hi1, hi2, rfl⟩ := (mem_portsOf_secure c hA).mp hP
    have henc := c.encrypt_lt hwf hA i
    omega

/-- Witness for C3 at the stripe facade: `forward("10.0.0.10")` yields
the truncated strided list starting at 1034 with step 256. -/
theorem port_range_containment_witness :
    (∀ P ∈ (pyRange 1034 65536 256).take 252,
      RESERVED_PORTS ≤ P ∧ P < PORTS_PER_IP) ∧
    ((pyRange 1034 65536 256).take 252).length = cnatStripe.ports_per_host ∧
    (cnatStripe.algo = Algo.secure →
      ∀ P ∈ (pyRange 1034 65536 256).take 252,
        P < RESERVED_PORTS + cnatStripe.n) :=
  port_range_containment cnatStripe cnatStripe_wf 167772170 (by decide)
    (by decide) 3221225984 ((pyRange 1034 65536 256).take 252) (by rfl)

/-! ## C2: coverage and the collision self-check -/

lemma CrunchNAT.cfc_go_clean (c : CrunchNAT) (hwf : c.WF) :
    ∀ (L : List Nat) (coll : List Nat) (ap : Finset Nat),
      (∀ o ∈ L, o < c.hosts_per_external) →
      (∀ o ∈ L, Disjoint ap (portsOf c o).toFinset) →
      L.Pairwise (fun o o' => o ≠ o') →
      c.cfc_go coll ap L = some coll := by
  intro L
  induction L with
  | nil =>
    intro coll ap _ _ _
    rfl
  | cons o rest ih =>
    intro coll ap hlt hdisj hpair
    obtain ⟨hhead, htail⟩ := List.pairwise_cons.mp hpair
    have hpe := c.hpe_pos hwf
    have ho_hpe : o < c.hosts_per_external := hlt o (List.mem_cons_self o rest)
    have ho_sz : o < c.internal_network.num_addresses :=
      Nat.lt_of_lt_of_le ho_hpe (Nat.div_le_self _ _)
    have hmodo : o % c.hosts_per_external = o := Nat.mod_eq_of_lt ho_hpe
    unfold CrunchNAT.cfc_go
    rw [c.internal_network.getItem_nonneg o ho_sz]
    dsimp only
    rw [c.forward_eq hwf o ho_sz, hmodo]
    dsimp only
    have hd := hdisj o (List.mem_cons_self o rest)
    rw [if_neg (by
      rw [Finset.disjoint_iff_inter_eq_empty.mp hd]
      exact Finset.not_nonempty_empty)]
    apply ih
    · intro o' ho'
      exact hlt o' (List.mem_cons_of_mem _ ho')
    · intro o' ho'
      rw [Finset.disjoint_union_left]
      refine ⟨hdisj o' (List.mem_cons_of_mem _ ho'), ?_⟩
      rw [Finset.disjoint_left]
      intro P hPo hPo'
      exact portsOf_disjoint c hwf ho_hpe
        (hlt o' (List.mem_cons_of_mem _ ho')) (hhead o' ho')
        (List.mem_toFinset.mp hPo) (List.mem_toFinset.mp hPo')
    · exact htail

/-- C2.  For every well-formed facade and each algorithm: every port
list returned by forward has length exactly `ports_per_host`; the union
of the port lists of the `hosts_per_external` internal addresses sharing
one external address has cardinality exactly
`hosts_per_external * ports_per_host` (the per-bucket port sets are
pairwise disjoint); and `check_forward_collisions` returns the empty
list. -/
theorem forward_coverage (c : CrunchNAT) (hwf : c.WF) :
    (∀ a, c.internal_network.network_address ≤ a →
      a < c.internal_network.network_address +
        c.internal_network.num_addresses →
      ∀ ea ports, c.forward a = some (ea, ports) →
        ports.length = c.ports_per_host) ∧
    (∀ eo, eo < c.external_network.num_addresses →
      ∀ f : Nat → List Nat,
        (∀ b, b < c.hosts_per_external →
          c.forward (c.internal_network.network_address +
              (eo * c.hosts_per_external + b)) =
            some (c.external_network.network_address + eo, f b)) →
        ((Finset.range c.hosts_per_external).biUnion
            (fun b => (f b).toFinset)).card =
          c.hosts_per_external * c.ports_per_host) ∧
    c.check_forward_collisions = some [] := by
  have hpe := c.hpe_pos hwf
  refine ⟨?_, ?_, ?_⟩
  · intro a ha1 ha2 ea ports hf
    obtain ⟨io, rfl, hio⟩ : ∃ io,
        a = c.internal_network.network_address + io ∧
        io < c.internal_network.num_addresses :=
      ⟨a - c.internal_network.network_address, by omega, by omega⟩
    rw [c.forward_eq hwf io hio] at hf
    have hf' := Option.some.inj hf
    rw [Prod.mk.injEq] at hf'
    obtain ⟨h1, h2⟩ := hf'
    subst h2
    exact length_portsOf c hwf (Nat.mod_lt _ hpe)
  · intro eo heo f hforward
    have hfb : ∀ b, b < c.hosts_per_external → f b = portsOf c b := by
      intro b hb
      have hidx := c.idx_lt hwf heo hb
      have hf := hforward b hb
      rw [c.forward_eq hwf _ hidx] at hf
      have hdiv : (eo * c.hosts_per_external + b) / c.hosts_per_external = eo := by
        rw [Nat.mul_comm eo]
        rw [Nat.mul_add_div hpe, Nat.div_eq_of_lt hb]
        omega
      have hmod : (eo * c.hosts_per_external + b) % c.hosts_per_external = b := by
        rw [Nat.mul_comm eo]
        rw [Nat.mul_add_mod, Nat.mod_eq_of_lt hb]
      rw [hdiv, hmod] at hf
      have hf' := Option.some.inj hf
      rw [Prod.mk.injEq] at hf'
      exact hf'.2.symm
    have hcong : (Finset.range c.hosts_per_external).biUnion
        (fun b => (f b).toFinset) =
        (Finset.range c.hosts_per_external).biUnion
          (fun b => (portsOf c b).toFinset) := by
      apply Finset.biUnion_congr rfl
      intro b hb
      rw [hfb b (Finset.mem_range.mp hb)]
    rw [hcong]
    rw [Finset.card_biUnion]
    · have hcard : ∀ b ∈ Finset.range c.hosts_per_external,
          (portsOf c b).toFinset.card = c.ports_per_host := by
        intro b hb
        have hb' := Finset.mem_range.mp hb
        rw [List.toFinset_card_of_nodup (nodup_portsOf c hwf hb')]
        exact length_portsOf c hwf hb'
      rw [Finset.sum_congr rfl hcard]
      rw [Finset.sum_const, Finset.card_range, smul_eq_mul]
    · intro x hx y hy hxy
      rw [Finset.disjoint_left]
      intro P hPx hPy
      exact portsOf_disjoint c hwf (Finset.mem_range.mp hx)
        (Finset.mem_range.mp hy) hxy
        (List.mem_toFinset.mp hPx) (List.mem_toFinset.mp hPy)
  · unfold CrunchNAT.check_forward_collisions
    apply c.cfc_go_clean hwf
    · intro o ho
      exact List.mem_range.mp ho
    · intro o _
      exact Finset.disjoint_empty_left _
    · exact List.nodup_range _

/-- Witness for C2: the simple facade of the test suite reports no
forward collisions. -/
theorem forward_coverage_witness :
    cnatSimple.check_forward_collisions = some [] :=
  (forward_coverage cnatSimple cnatSimple_wf).2.2

/-! ## Reverse as pure indexing; failure characterizations -/

/-- Every reverse map is plain network indexing at
`external_offset * hosts_per_external + bucketOfPort port`: no port
validation of any kind happens. -/
lemma CrunchNAT.reverse_getItem (c : CrunchNAT) (ea port : Nat) :
    c.reverse ea port =
      c.internal_network.getItem
        (((ea : Int) - (c.external_network.network_address : Int)) *
          (c.hosts_per_external : Int) + c.bucketOfPort port) := by
  unfold CrunchNAT.reverse CrunchNAT.bucketOfPort CrunchNAT.simple_reverse
    CrunchNAT.stripe_reverse CrunchNAT.secure_reverse
  cases c.algo <;> rfl

lemma CrunchNAT.forward_none_iff (c : CrunchNAT) (a : Nat) :
    c.forward a = none ↔
      c.external_network.getItem
        (Int.fdiv ((a : Int) - (c.internal_network.network_address : Int))
          (c.hosts_per_external : Int)) = none := by
  unfold CrunchNAT.forward CrunchNAT.simple_forward CrunchNAT.stripe_forward
    CrunchNAT.secure_forward
  cases c.algo <;> dsimp only <;> rw [Option.map_eq_none']

lemma CrunchNAT.decryptZ_lt (c : CrunchNAT) (hn : 0 < c.n) (x : Int) :
    c.decryptZ x < c.n := by
  unfold CrunchNAT.decryptZ
  have h := Int.emod_lt_of_pos (x ^ c.d) (by exact_mod_cast hn : (0 : Int) < (c.n : Int))
  have h2 := Int.emod_nonneg (x ^ c.d) (by exact_mod_cast Nat.pos_iff_ne_zero.mp hn : ((c.n : Int)) ≠ 0)
  omega

/-! ## C5: the crunch-factor check -/

/-- Counterexample to C5 as stated: with external prefix 16 and internal
prefix 24 the prefix difference is -8, outside `[0, 8]`, yet
construction succeeds instead of raising `ExcessiveCrunchFactor`
(the source only checks the upper bound). -/
theorem init_negative_crunch_ok :
    CrunchNAT.init ⟨3221225472, 16⟩ ⟨167772160, 24⟩ Algo.simple 251 257 19 =
      .ok ⟨⟨3221225472, 16⟩, ⟨167772160, 24⟩, Algo.simple, 251, 257, 19, 0⟩ ∧
    ((16 : Int) - (24 : Int) < 0) := by
  exact ⟨rfl, by decide⟩

/-- C5 amended: construction fails with `ExcessiveCrunchFactor` exactly
when `external.prefix - internal.prefix` exceeds `MAX_CRUNCH_FACTOR = 8`;
a negative difference is accepted without error. -/
theorem init_excessive_iff (ext int : IPNetwork) (algo : Algo) (p q e : Nat) :
    CrunchNAT.init ext int algo p q e = .error .excessiveCrunchFactor ↔
      (ext.prefixlen : Int) - (int.prefixlen : Int) > MAX_CRUNCH_FACTOR := by
  unfold CrunchNAT.init
  split
  · next h =>
    simp only [true_iff, h]
  · next h =>
    constructor
    · intro hres
      exfalso
      cases algo with
      | simple => simp at hres
      | stripe => simp at hres
      | secure =>
        by_cases hk : USABLE_PORTS < p * q
        · rw [if_pos hk] at hres
          simp at hres
        · rw [if_neg hk] at hres
          cases hmi : modinv e ((p - 1) * (q - 1)) with
          | none =>
            rw [hmi] at hres
            simp at hres
          | some dd =>
            rw [hmi] at hres
            simp at hres
    · intro hgt
      exact absurd hgt h

/-! ## C6: out-of-range behavior of forward and reverse -/

/-- Counterexample to C6 as stated: `9.255.255.255` (167772159) is not
within `10.0.0.0/16`, yet simple forward maps it without any error:
Python's negative network indexing wraps, returning `192.0.2.255` with
the bucket-255 port range. -/
theorem forward_out_of_range_ok :
    167772159 < intNet0.network_address ∧
    cnatSimple.forward 167772159 = some (3221226239, List.range' 65284 252) := by
  exact ⟨by decide, rfl⟩

/-- C6 amended: forward raises exactly when the derived external index
`(a - internal_base) // hosts_per_external` falls outside
`[-ext_size, ext_size)` (Python indexing semantics), so out-of-network
internal addresses less than `hosts_per_external * ext_size` below the
network are mapped without error; in-range internal addresses never
fail.  Likewise reverse, for any port whose bucket term lies in
`[0, hosts_per_external)`, raises exactly when the external offset falls
outside `[-ext_size, ext_size)`, and never fails for in-range external
addresses. -/
theorem out_of_range_behavior (c : CrunchNAT) (hwf : c.WF) :
    (∀ a : Nat, c.forward a = none ↔
      ((c.external_network.num_addresses : Int) ≤
          Int.fdiv ((a : Int) - (c.internal_network.network_address : Int))
            (c.hosts_per_external : Int) ∨
        Int.fdiv ((a : Int) - (c.internal_network.network_address : Int))
            (c.hosts_per_external : Int) <
          -(c.external_network.num_addresses : Int))) ∧
    (∀ a : Nat, c.internal_network.network_address ≤ a →
      a < c.internal_network.network_address +
        c.internal_network.num_addresses →
      (c.forward a).isSome = true) ∧
    (∀ ea port : Nat, 0 ≤ c.bucketOfPort port →
      c.bucketOfPort port < (c.hosts_per_external : Int) →
      (c.reverse ea port = none ↔
        ((c.external_network.num_addresses : Int) ≤
            (ea : Int) - (c.external_network.network_address : Int) ∨
          (ea : Int) - (c.external_network.network_address : Int) <
            -(c.external_network.num_addresses : Int)))) ∧
    (∀ ea port : Nat, c.external_network.network_address ≤ ea →
      ea < c.external_network.network_address +
        c.external_network.num_addresses →
      0 ≤ c.bucketOfPort port →
      c.bucketOfPort port < (c.hosts_per_external : Int) →
      (c.reverse ea port).isSome = true) := by
  have hpe := c.hpe_pos hwf
  have hpez : (0 : Int) < (c.hosts_per_external : Int) := by exact_mod_cast hpe
  have hsz : (c.internal_network.num_addresses : Int) =
      (c.external_network.num_addresses : Int) *
        (c.hosts_per_external : Int) := by
    have := c.size_eq hwf
    push_cast [this]
    ring
  refine ⟨?_, ?_, ?_, ?_⟩
  · intro a
    rw [c.forward_none_iff, IPNetwork.getItem_none_iff]
  · intro a ha1 ha2
    obtain ⟨io, rfl, hio⟩ : ∃ io,
        a = c.internal_network.network_address + io ∧
        io < c.internal_network.num_addresses :=
      ⟨a - c.internal_network.network_address, by omega, by omega⟩
    rw [c.forward_eq hwf io hio]
    rfl
  · intro ea port hb0 hblt
    rw [c.reverse_getItem, IPNetwork.getItem_none_iff]
    set eoz : Int := (ea : Int) - (c.external_network.network_address : Int)
      with heoz
    set bop : Int := c.bucketOfPort port with hbop
    have hdiv : (eoz * (c.hosts_per_external : Int) + bop) /
        (c.hosts_per_external : Int) = eoz := by
      rw [Int.add_comm, Int.add_mul_ediv_right _ _ (ne_of_gt hpez),
        Int.ediv_eq_zero_of_lt hb0 hblt]
      omega
    have hA := Int.le_ediv_iff_mul_le
      (a := (c.external_network.num_addresses : Int))
      (b := eoz * (c.hosts_per_external : Int) + bop) hpez
    rw [hdiv] at hA
    have hB := Int.ediv_lt_iff_lt_mul
      (a := eoz * (c.hosts_per_external : Int) + bop)
      (b := -(c.external_network.num_addresses : Int)) hpez
    rw [hdiv] at hB
    rw [hsz]
    constructor
    · rintro (h | h)
      · exact Or.inl (hA.mpr h)
      · refine Or.inr (hB.mpr ?_)
        rw [neg_mul]
        exact h
    · rintro (h | h)
      · exact Or.inl (hA.mp h)
      · have h2 := hB.mp h
        rw [neg_mul] at h2
        exact Or.inr h2
  · intro ea port hea1 hea2 hb0 hblt
    obtain ⟨eo, rfl, heo⟩ : ∃ eo,
        ea = c.external_network.network_address + eo ∧
        eo < c.external_network.num_addresses :=
      ⟨ea - c.external_network.network_address, by omega, by omega⟩
    rw [c.reverse_getItem, offset_cast]
    have hcast : (eo : Int) * (c.hosts_per_external : Int) +
        c.bucketOfPort port =
        ((eo * c.hosts_per_external + (c.bucketOfPort port).toNat : Nat) : Int) := by
      push_cast [Int.toNat_of_nonneg hb0]
      ring
    rw [hcast]
    have hblt' : (c.bucketOfPort port).toNat < c.hosts_per_external := by
      omega
    rw [c.internal_network.getItem_nonneg _ (c.idx_lt hwf heo hblt')]
    rfl

/-- Witness for the amended C6 at the simple facade: the in-network
address `10.0.0.10` is forwarded without error. -/
theorem out_of_range_behavior_witness :
    (cnatSimple.forward 167772170).isSome = true :=
  (out_of_range_behavior cnatSimple cnatSimple_wf).2.1 167772170 (by decide)
    (by decide)

/-! ## C7: no port validation in reverse -/

/-- Counterexample to C7 as stated: port `0 < RESERVED_PORTS`, yet
simple reverse does not fail: the floor division of the negative offset
yields bucket `-5`, Python's negative indexing wraps, and
`10.0.255.251` is returned. -/
theorem reverse_low_port_ok :
    (0 : Nat) < RESERVED_PORTS ∧
    cnatSimple.reverse 3221225984 0 = some 167837691 := by
  exact ⟨by decide, rfl⟩

/-- C7 amended: reverse performs no port validation at all - it is pure
network indexing at the computed bucket term (so no `UnmappedPort`
failure exists): a port below `RESERVED_PORTS` produces a negative
bucket term that wraps through Python's negative indexing (for the
seed simple facade, port 0 yields `10.0.255.251`), and for secure every
port decrypts into `[0, n)`, so every port with
`P - RESERVED_PORTS ≥ n` is resolved without error at the seed facade's
external address. -/
theorem reverse_no_port_validation (c : CrunchNAT) (ea port : Nat) :
    c.reverse ea port =
      c.internal_network.getItem
        (((ea : Int) - (c.external_network.network_address : Int)) *
          (c.hosts_per_external : Int) + c.bucketOfPort port) ∧
    cnatSimple.reverse 3221225984 0 = some 167837691 ∧
    (∀ P : Nat, RESERVED_PORTS + cnatSecure.n ≤ P →
      (cnatSecure.reverse 3221225984 P).isSome = true) := by
  refine ⟨c.reverse_getItem ea port, rfl, ?_⟩
  intro P hP
  rw [cnatSecure.reverse_getItem]
  have hdec : cnatSecure.decryptZ ((P : Int) - (RESERVED_PORTS : Int)) <
      cnatSecure.n := cnatSecure.decryptZ_lt (by decide) _
  have hb : cnatSecure.bucketOfPort P =
      ((cnatSecure.decryptZ ((P : Int) - (RESERVED_PORTS : Int)) /
        cnatSecure.ports_per_host : Nat) : Int) := rfl
  have hdivle : cnatSecure.decryptZ ((P : Int) - (RESERVED_PORTS : Int)) /
      cnatSecure.ports_per_host ≤ 64506 / 251 := by
    apply Nat.div_le_div ?_ (le_refl _) (by decide)
    have hn : cnatSecure.n = 64507 := rfl
    omega
  rw [hb]
  have heoz : ((3221225984 : Nat) : Int) -
      (cnatSecure.external_network.network_address : Int) = 0 := by decide
  rw [heoz]
  have hidx : (0 : Int) * (cnatSecure.hosts_per_external : Int) +
      ((cnatSecure.decryptZ ((P : Int) - (RESERVED_PORTS : Int)) /
        cnatSecure.ports_per_host : Nat) : Int) =
      ((cnatSecure.decryptZ ((P : Int) - (RESERVED_PORTS : Int)) /
        cnatSecure.ports_per_host : Nat) : Int) := by
    ring
  rw [hidx]
  rw [cnatSecure.internal_network.getItem_nonneg _ (by
    have : (64506 : Nat) / 251 < cnatSecure.internal_network.num_addresses := by
      decide
    omega)]
  rfl

/-- Witness for the amended C7: the first port past the secure range,
`1024 + 64507 = 65531`, is still resolved without error. -/
theorem reverse_no_port_validation_witness :
    (cnatSecure.reverse 3221225984 65531).isSome = true :=
  (reverse_no_port_validation cnatSimple 3221225984 0).2.2 65531 (by decide)

/-! ## Concrete secure-facade computations -/

lemma CrunchNAT.secure_reverse_decrypt (c : CrunchNAT) (ea port : Nat)
    (hport : RESERVED_PORTS ≤ port) :
    c.secure_reverse ea port =
      c.internal_network.getItem
        (((ea : Int) - (c.external_network.network_address : Int)) *
          (c.hosts_per_external : Int) +
          ((c.decrypt (port - RESERVED_PORTS) / c.ports_per_host : Nat) : Int)) := by
  unfold CrunchNAT.secure_reverse
  dsimp only
  rw [show (port : Int) - (RESERVED_PORTS : Int) =
    ((port - RESERVED_PORTS : Nat) : Int) by omega]
  rw [c.decryptZ_natCast]

/-- At the external network address of the seed secure facade, reverse
succeeds for every port whatsoever: the decrypted value always lands in
`[0, n)`, so the internal index stays in range. -/
lemma cnatSecure_reverse_base_isSome (P : Nat) :
    (cnatSecure.reverse 3221225984 P).isSome = true := by
  rw [cnatSecure.reverse_getItem]
  have hdec := cnatSecure.decryptZ_lt (by decide)
    ((P : Int) - (RESERVED_PORTS : Int))
  have hn : cnatSecure.n = 64507 := rfl
  have hb : cnatSecure.bucketOfPort P =
      ((cnatSecure.decryptZ ((P : Int) - (RESERVED_PORTS : Int)) /
        cnatSecure.ports_per_host : Nat) : Int) := rfl
  have hdivle : cnatSecure.decryptZ ((P : Int) - (RESERVED_PORTS : Int)) /
      cnatSecure.ports_per_host ≤ 64506 / 251 := by
    apply Nat.div_le_div ?_ (le_refl _) (by decide)
    omega
  rw [hb]
  have heoz : ((3221225984 : Nat) : Int) -
      (cnatSecure.external_network.network_address : Int) = 0 := by decide
  rw [heoz]
  have hidx : (0 : Int) * (cnatSecure.hosts_per_external : Int) +
      ((cnatSecure.decryptZ ((P : Int) - (RESERVED_PORTS : Int)) /
        cnatSecure.ports_per_host : Nat) : Int) =
      ((cnatSecure.decryptZ ((P : Int) - (RESERVED_PORTS : Int)) /
        cnatSecure.ports_per_host : Nat) : Int) := by
    ring
  rw [hidx]
  rw [cnatSecure.internal_network.getItem_nonneg _ (by
    have h64 : (64506 : Nat) / 251 <
        cnatSecure.internal_network.num_addresses := by decide
    omega)]
  rfl

/-! ## C8: the seed secure scenario -/

set_option maxRecDepth 4000 in
set_option exponentiation.threshold 25000 in
/-- C8.  For the facade with external `192.0.2.0/24`, internal
`10.0.0.0/16`, the secure algorithm and default keys:
`hosts_per_external = 256`, `ports_per_host = 251`,
`forward("10.0.0.10")` returns external address `192.0.2.0` with a port
list of length 251, and `reverse("192.0.2.0", 2318) = "10.0.0.10"`. -/
theorem seed_secure_scenario :
    cnatSecure.hosts_per_external = 256 ∧
    cnatSecure.ports_per_host = 251 ∧
    (cnatSecure.forward 167772170).map Prod.fst = some 3221225984 ∧
    (cnatSecure.forward 167772170).map (fun pr => pr.2.length) = some 251 ∧
    cnatSecure.reverse 3221225984 2318 = some 167772170 := by
  refine ⟨rfl, rfl, rfl, by rfl, ?_⟩
  show cnatSecure.secure_reverse 3221225984 2318 = some 167772170
  rw [cnatSecure.secure_reverse_decrypt _ _ (by decide)]
  decide

/-! ## C9: a zero count in check_bijection -/

/-- C9.  Passing `count = 0` to `check_bijection` does not check zero
addresses: `0` is falsy in Python, so it is replaced by the default and
`check_bijection 0` returns exactly what `check_bijection()` (no
argument) returns, checking the first `hosts_per_external` internal
addresses. -/
theorem check_bijection_zero_count (c : CrunchNAT) :
    c.check_bijection (some 0) = c.check_bijection none := rfl

/-! ## C10: secure reverse on ports outside the forward image -/

set_option exponentiation.threshold 25000 in
/-- C10.  For the secure seed facade, reverse at the external network
address returns an internal address without error for every port `P` in
`[RESERVED_PORTS, RESERVED_PORTS + n)` - including ports whose decrypted
index is at least `hosts_per_external * ports_per_host`, which no
forward call for this external address ever emits.  At such a port
(e.g. `10888`, whose decrypted index is `64450 ≥ 64256`), the recovered
bucket index is `256 ≥ hosts_per_external`, and the internal address
returned (`10.0.1.0`) is one that forward maps to the *different*
external address `192.0.2.1`. -/
theorem secure_reverse_out_of_forward_range :
    (∀ P : Nat, RESERVED_PORTS ≤ P → P < RESERVED_PORTS + cnatSecure.n →
      (cnatSecure.reverse 3221225984 P).isSome = true) ∧
    cnatSecure.decrypt (10888 - RESERVED_PORTS) = 64450 ∧
    cnatSecure.hosts_per_external * cnatSecure.ports_per_host ≤ 64450 ∧
    64450 / cnatSecure.ports_per_host = 256 ∧
    cnatSecure.hosts_per_external ≤ 256 ∧
    cnatSecure.reverse 3221225984 10888 = some 167772416 ∧
    (cnatSecure.forward 167772416).map Prod.fst = some 3221225985 ∧
    (3221225985 : Nat) ≠ 3221225984 := by
  refine ⟨fun P _ _ => cnatSecure_reverse_base_isSome P, by decide, by decide,
    by decide, by decide, ?_, rfl, by decide⟩
  show cnatSecure.secure_reverse 3221225984 10888 = some 167772416
  rw [cnatSecure.secure_reverse_decrypt _ _ (by decide)]
  decide

/-- Witness for C10 at the test suite's port 2318. -/
theorem secure_reverse_out_of_forward_range_witness :
    (cnatSecure.reverse 3221225984 2318).isSome = true :=
  secure_reverse_out_of_forward_range.1 2318 (by decide) (by decide)
